import Mathlib

/-!
Verification of the data-selection pipeline of
`scripts/domain_adaptation/select_data.py` (Transformers-Domain-Adaptation).

The Python source is shallowly embedded: scores are rationals (the source
uses floats only through order comparisons, min/max, and affine rescaling,
all of which are exact here), `pandas.Series` score series are `List ℚ`
with the default integer range index, and boolean numpy masks are
`List Bool`.
-/

namespace SelectData

/-- Order used to model `pandas.Series.sort_values(ascending).index`:
positions compared by score (ascending or descending), with equal scores
ordered by original position.  The source calls `sort_values` with the
default `kind` (numpy's introsort), which guarantees no particular order
among equal keys, so fixing ties by position here over-specifies the code;
the theorems below therefore rely only on tie-order-independent facts about
the sorted index (it is a permutation of `0, …, N-1`). -/
def sortLE (scores : List ℚ) : Bool → Nat → Nat → Prop
  | true, i, j =>
      scores.getD i 0 < scores.getD j 0 ∨
        (scores.getD i 0 = scores.getD j 0 ∧ i ≤ j)
  | false, i, j =>
      scores.getD j 0 < scores.getD i 0 ∨
        (scores.getD i 0 = scores.getD j 0 ∧ i ≤ j)

instance sortLE.decidableRel (scores : List ℚ) (asc : Bool) :
    DecidableRel (sortLE scores asc) := fun i j => by
  cases asc <;> exact inferInstanceAs (Decidable (_ ∨ _))

/-- Embedding of `scores.sort_values(ascending=ascending).index`: the list
of positions `0, …, N-1` rearranged into the order described by `sortLE`.
One concrete outcome of the code's unstable sort is chosen (see `sortLE`);
every theorem below uses only its permutation properties, which hold for
any sort kind. -/
def sortValuesIndex (scores : List ℚ) (ascending : Bool) : List Nat :=
  List.insertionSort (sortLE scores ascending) (List.range scores.length)

/-- Selection policy of `_rank_metric_and_select`: exactly one of `--pct`,
`--n-docs` and `--threshold` is supplied (enforced by the argument parser's
mutually exclusive group). -/
inductive SelectPolicy where
  | pct (p : ℚ)
  | numDocs (n : Nat)
  | threshold (t : ℚ)

/-- Number of documents kept by the ranking branch of
`_rank_metric_and_select`: `int(len(scores) * args.pct)` for the percentage
policy (Python `int` truncation agrees with `⌊·⌋.toNat` on the validated
range `0 < pct ≤ 1`) and `args.n_docs` for the fixed-count policy. -/
def nDocsOf (scores : List ℚ) : SelectPolicy → Nat
  | .pct p => (⌊(scores.length : ℚ) * p⌋).toNat
  | .numDocs n => n
  | .threshold _ => 0

/-- Embedding of the `doc_indices` computed by `_rank_metric_and_select`:
for `pct`/`n_docs` the first `n_docs` entries of the sorted index
(`scores.sort_values(ascending=args.invert).index[:n_docs]`), and for
`threshold` the index of `scores[scores >= t]` (resp. `scores <= t` when
`--invert` is supplied), which under the range index is the list of
positions whose score satisfies the predicate. -/
def docIndices (scores : List ℚ) (policy : SelectPolicy) (invert : Bool) :
    List Nat :=
  match policy with
  | .threshold t =>
      (List.range scores.length).filter fun i =>
        if invert then decide (scores.getD i 0 ≤ t)
        else decide (t ≤ scores.getD i 0)
  | _ => (sortValuesIndex scores invert).take (nDocsOf scores policy)

/-- Embedding of `_rank_metric_and_select`: a boolean mask of length
`len(scores)` (the `np.zeros(len(scores), dtype=bool)` array) with `True`
exactly at the positions listed in `doc_indices`. -/
def rankMetricAndSelect (scores : List ℚ) (policy : SelectPolicy)
    (invert : Bool) : List Bool :=
  (List.range scores.length).map fun i =>
    decide (i ∈ docIndices scores policy invert)

theorem sortValuesIndex_perm (scores : List ℚ) (asc : Bool) :
    (sortValuesIndex scores asc).Perm (List.range scores.length) :=
  List.perm_insertionSort _ _

theorem sortValuesIndex_length (scores : List ℚ) (asc : Bool) :
    (sortValuesIndex scores asc).length = scores.length := by
  simpa using (sortValuesIndex_perm scores asc).length_eq

theorem sortValuesIndex_nodup (scores : List ℚ) (asc : Bool) :
    (sortValuesIndex scores asc).Nodup :=
  ((sortValuesIndex_perm scores asc).nodup_iff).mpr (List.nodup_range _)

theorem sortValuesIndex_mem (scores : List ℚ) (asc : Bool) {i : Nat} :
    i ∈ sortValuesIndex scores asc ↔ i < scores.length := by
  rw [(sortValuesIndex_perm scores asc).mem_iff, List.mem_range]

/-- Counting the `True` entries of a membership mask over `0, …, N-1`
recovers the number of (distinct, in-range) indices that were set. -/
theorem count_mem_mask (idxs : List Nat) (N : Nat) (hnd : idxs.Nodup)
    (hlt : ∀ i ∈ idxs, i < N) :
    ((List.range N).map fun i => decide (i ∈ idxs)).count true = idxs.length := by
  rw [List.count_eq_countP, List.countP_map]
  have hperm : ((List.range N).filter fun i => decide (i ∈ idxs)).Perm idxs := by
    rw [List.perm_ext_iff_of_nodup
      ((List.nodup_range N).filter _) hnd]
    intro a
    simp only [List.mem_filter, List.mem_range, decide_eq_true_eq]
    exact ⟨fun h => h.2, fun h => ⟨hlt a h, h⟩⟩
  calc ((List.range N).countP fun i => decide (i ∈ idxs) == true)
      = (List.range N).countP fun i => decide (i ∈ idxs) := by
        simp only [Function.comp_def, beq_true]
    _ = ((List.range N).filter fun i => decide (i ∈ idxs)).length :=
        List.countP_eq_length_filter _ _
    _ = idxs.length := hperm.length_eq

theorem docIndices_rank_nodup (scores : List ℚ) (invert : Bool)
    (policy : SelectPolicy) :
    (docIndices scores policy invert).Nodup := by
  cases policy with
  | threshold t => exact ((List.nodup_range _).filter _)
  | pct p =>
      exact (List.take_sublist _ _).nodup (sortValuesIndex_nodup scores invert)
  | numDocs n =>
      exact (List.take_sublist _ _).nodup (sortValuesIndex_nodup scores invert)

theorem docIndices_lt (scores : List ℚ) (invert : Bool)
    (policy : SelectPolicy) :
    ∀ i ∈ docIndices scores policy invert, i < scores.length := by
  intro i hi
  cases policy with
  | threshold t =>
      simp only [docIndices, List.mem_filter, List.mem_range] at hi
      exact hi.1
  | pct p =>
      exact (sortValuesIndex_mem scores invert).mp
        (List.mem_of_mem_take hi)
  | numDocs n =>
      exact (sortValuesIndex_mem scores invert).mp
        (List.mem_of_mem_take hi)

theorem rankMetricAndSelect_length (scores : List ℚ) (policy : SelectPolicy)
    (invert : Bool) :
    (rankMetricAndSelect scores policy invert).length = scores.length := by
  simp [rankMetricAndSelect]

theorem rankMetricAndSelect_count (scores : List ℚ) (policy : SelectPolicy)
    (invert : Bool) :
    (rankMetricAndSelect scores policy invert).count true =
      (docIndices scores policy invert).length :=
  count_mem_mask _ _ (docIndices_rank_nodup scores invert policy)
    (docIndices_lt scores invert policy)

theorem rankMetricAndSelect_getD (scores : List ℚ) (policy : SelectPolicy)
    (invert : Bool) {i : Nat} (hi : i < scores.length) :
    (rankMetricAndSelect scores policy invert).getD i false =
      decide (i ∈ docIndices scores policy invert) := by
  have hlen : i < (rankMetricAndSelect scores policy invert).length := by
    rwa [rankMetricAndSelect_length]
  rw [List.getD_eq_getElem _ _ hlen]
  simp [rankMetricAndSelect]

theorem docIndices_pct (scores : List ℚ) (p : ℚ) (invert : Bool) :
    docIndices scores (.pct p) invert =
      (sortValuesIndex scores invert).take (⌊(scores.length : ℚ) * p⌋).toNat :=
  rfl

theorem docIndices_numDocs (scores : List ℚ) (n : Nat) (invert : Bool) :
    docIndices scores (.numDocs n) invert =
      (sortValuesIndex scores invert).take n :=
  rfl

theorem mem_docIndices_threshold {scores : List ℚ} {t : ℚ} {invert : Bool}
    {i : Nat} (hi : i < scores.length) :
    i ∈ docIndices scores (.threshold t) invert ↔
      (if invert then scores.getD i 0 ≤ t else t ≤ scores.getD i 0) := by
  cases invert <;>
    simp [docIndices, List.mem_filter, List.mem_range, hi]

/-- C1.  With the percentage policy (`0 < p ≤ 1`, no threshold),
`_rank_metric_and_select` returns a mask of length `N = len(scores)` whose
number of `True` entries is exactly `⌊N * p⌋`, for the non-inverted and the
inverted direction alike. -/
theorem pct_mask_count (scores : List ℚ) (p : ℚ) (invert : Bool)
    (_h0 : 0 < p) (h1 : p ≤ 1) :
    (rankMetricAndSelect scores (.pct p) invert).length = scores.length ∧
      (rankMetricAndSelect scores (.pct p) invert).count true =
        Nat.floor ((scores.length : ℚ) * p) := by
  refine ⟨rankMetricAndSelect_length _ _ _, ?_⟩
  rw [rankMetricAndSelect_count, docIndices_pct, List.length_take,
    sortValuesIndex_length, Int.floor_toNat]
  have hle : Nat.floor ((scores.length : ℚ) * p) ≤ scores.length := by
    have : (scores.length : ℚ) * p ≤ (scores.length : ℚ) :=
      mul_le_of_le_one_right (Nat.cast_nonneg _) h1
    calc Nat.floor ((scores.length : ℚ) * p)
        ≤ Nat.floor ((scores.length : ℚ)) := Nat.floor_le_floor this
      _ = scores.length := Nat.floor_natCast _
  exact min_eq_left hle

/-- C1 witness: a corpus of three scores with `p = 2/3` selects exactly
`⌊3 * 2/3⌋ = 2` documents. -/
theorem pct_mask_count_witness :
    (0 : ℚ) < 2/3 ∧ (2/3 : ℚ) ≤ 1 ∧
      ((rankMetricAndSelect [3, 1, 2] (.pct (2/3)) false).length =
          ([3, 1, 2] : List ℚ).length ∧
        (rankMetricAndSelect [3, 1, 2] (.pct (2/3)) false).count true =
          Nat.floor (((([3, 1, 2] : List ℚ).length : ℚ)) * (2/3))) ∧
      (rankMetricAndSelect [3, 1, 2] (.pct (2/3)) false).count true = 2 :=
  ⟨by norm_num, by norm_num,
    pct_mask_count [3, 1, 2] (2/3) false (by norm_num) (by norm_num),
    ((pct_mask_count [3, 1, 2] (2/3) false (by norm_num) (by norm_num)).2).trans
      (by norm_num)⟩

/-- C9.  With the fixed-count policy, `_rank_metric_and_select` returns,
without any error, a mask of length `N` with exactly `min n_docs N` entries
set — an oversized `n_docs` silently selects the whole corpus, because the
Python slice `index[:n_docs]` clamps at the list length. -/
theorem numDocs_mask_count (scores : List ℚ) (n : Nat) (invert : Bool) :
    (rankMetricAndSelect scores (.numDocs n) invert).length = scores.length ∧
      (rankMetricAndSelect scores (.numDocs n) invert).count true =
        min n scores.length := by
  refine ⟨rankMetricAndSelect_length _ _ _, ?_⟩
  rw [rankMetricAndSelect_count, docIndices_numDocs, List.length_take,
    sortValuesIndex_length]

/-- C2.  With the threshold policy, the mask marks position `i` exactly when
`scores[i] ≥ t` (non-inverted) resp. `scores[i] ≤ t` (inverted), and a
threshold matched by no document yields the all-`False` mask rather than an
error. -/
theorem threshold_mask_spec (scores : List ℚ) (t : ℚ) (invert : Bool) :
    (rankMetricAndSelect scores (.threshold t) invert).length = scores.length ∧
      (∀ i, i < scores.length →
        (rankMetricAndSelect scores (.threshold t) invert).getD i false =
          (if invert then decide (scores.getD i 0 ≤ t)
            else decide (t ≤ scores.getD i 0))) ∧
      ((∀ s ∈ scores, ¬ (if invert then s ≤ t else t ≤ s)) →
        rankMetricAndSelect scores (.threshold t) invert =
          List.replicate scores.length false) := by
  refine ⟨rankMetricAndSelect_length _ _ _, fun i hi => ?_, fun hall => ?_⟩
  · rw [rankMetricAndSelect_getD _ _ _ hi]
    cases invert <;> simp [mem_docIndices_threshold hi]
  · have hfil : docIndices scores (.threshold t) invert = [] := by
      apply List.filter_eq_nil_iff.mpr
      intro a ha
      rw [List.mem_range] at ha
      have hmem : scores.getD a 0 ∈ scores := by
        rw [List.getD_eq_getElem _ _ ha]
        exact List.getElem_mem ha
      have := hall _ hmem
      cases invert <;> simpa using this
    simp [rankMetricAndSelect, hfil, List.map_const', List.length_range]

/-- C2 witness: threshold `t = 2` on scores `[3, 1, 2]` marks positions `0`
and `2`; threshold `t = 9` matches nothing and yields the all-false mask. -/
theorem threshold_mask_spec_witness :
    ((rankMetricAndSelect [3, 1, 2] (.threshold 2) false).getD 0 false =
        decide ((2 : ℚ) ≤ ([3, 1, 2] : List ℚ).getD 0 0)) ∧
      ((∀ s ∈ ([3, 1, 2] : List ℚ), ¬ ((9 : ℚ) ≤ s)) →
        rankMetricAndSelect [3, 1, 2] (.threshold 9) false =
          List.replicate ([3, 1, 2] : List ℚ).length false) ∧
      rankMetricAndSelect [3, 1, 2] (.threshold 9) false =
        [false, false, false] :=
  ⟨by
    have h := (threshold_mask_spec [3, 1, 2] 2 false).2.1 0 (by decide)
    simpa using h,
    fun hall => by
      have h := (threshold_mask_spec [3, 1, 2] 9 false).2.2
      exact h (by simpa using hall),
    by decide⟩

def listMin : List ℚ → ℚ
  | [] => 0
  | x :: xs => xs.foldl min x

def listMax : List ℚ → ℚ
  | [] => 0
  | x :: xs => xs.foldl max x

/-- Embedding of `MinMaxScaler().fit_transform(xs.reshape(-1, 1))` for a
single feature column: rescale by `(x - min) / (max - min)` with sklearn's
`_handle_zeros_in_scale` replacing a zero range by `1`. -/
def minMaxScale (xs : List ℚ) : List ℚ :=
  xs.map fun x =>
    (x - listMin xs) /
      (if listMax xs - listMin xs = 0 then 1 else listMax xs - listMin xs)

theorem minMaxScale_length (xs : List ℚ) :
    (minMaxScale xs).length = xs.length := by
  simp [minMaxScale]

/-- Fusion mode of `select_similar_and_diverse` (`--fuse-by`). -/
inductive FuseBy where
  | linearCombination
  | union

/-- Embedding of the fusion part of `select_similar_and_diverse` (after the
similarity and diversity score series have been computed or read from
cache): `linear_combination` min-max rescales each series independently,
combines them with the supplied weights and ranks the composite once;
`union` ranks each series separately with the same policy and takes the
element-wise `or` of the two masks. -/
def selectSimilarAndDiverse (sim divScores : List ℚ) (fuseBy : FuseBy)
    (weights : ℚ × ℚ) (policy : SelectPolicy) (invert : Bool) : List Bool :=
  match fuseBy with
  | .linearCombination =>
      rankMetricAndSelect
        (List.zipWith (fun a b => weights.1 * a + weights.2 * b)
          (minMaxScale sim) (minMaxScale divScores))
        policy invert
  | .union =>
      List.zipWith or (rankMetricAndSelect sim policy invert)
        (rankMetricAndSelect divScores policy invert)

theorem count_zipWith_or_le :
    ∀ a b : List Bool,
      (List.zipWith or a b).count true ≤ a.count true + b.count true := by
  intro a
  induction a with
  | nil => intro b; simp
  | cons x xs ih =>
      intro b
      cases b with
      | nil => simp
      | cons y ys =>
          have h := ih ys
          simp only [List.zipWith, List.count_cons]
          cases x <;> cases y <;> simp <;> omega

/-- C5.  Union-mode fusion is exactly the element-wise `or` of the two masks
obtained by running the selection engine with the same policy on each score
series, and therefore selects at most the sum of the two individual
selection counts. -/
theorem union_fusion_spec (sim divScores : List ℚ) (weights : ℚ × ℚ)
    (policy : SelectPolicy) (invert : Bool)
    (_hlen : sim.length = divScores.length) :
    selectSimilarAndDiverse sim divScores .union weights policy invert =
      List.zipWith or (rankMetricAndSelect sim policy invert)
        (rankMetricAndSelect divScores policy invert) ∧
    (selectSimilarAndDiverse sim divScores .union weights policy invert).count
        true ≤
      (rankMetricAndSelect sim policy invert).count true +
        (rankMetricAndSelect divScores policy invert).count true :=
  ⟨rfl, count_zipWith_or_le _ _⟩

/-- C5 witness: on scores `[3, 1]` and `[1, 2]` with fixed count 1, the two
masks are `[true, false]` and `[false, true]` and the fused mask is their
element-wise `or`, `[true, true]`. -/
theorem union_fusion_spec_witness :
    (([3, 1] : List ℚ).length = ([1, 2] : List ℚ).length) ∧
      (selectSimilarAndDiverse [3, 1] [1, 2] .union (1, 1) (.numDocs 1) false =
        List.zipWith or (rankMetricAndSelect [3, 1] (.numDocs 1) false)
          (rankMetricAndSelect [1, 2] (.numDocs 1) false) ∧
      (selectSimilarAndDiverse [3, 1] [1, 2] .union (1, 1) (.numDocs 1)
          false).count true ≤
        (rankMetricAndSelect [3, 1] (.numDocs 1) false).count true +
          (rankMetricAndSelect [1, 2] (.numDocs 1) false).count true) ∧
      selectSimilarAndDiverse [3, 1] [1, 2] .union (1, 1) (.numDocs 1) false =
        [true, true] :=
  ⟨rfl,
    union_fusion_spec [3, 1] [1, 2] (1, 1) (.numDocs 1) false rfl,
    by decide⟩

theorem zipWith_weight_left (xs ys : List ℚ) (h : xs.length = ys.length) :
    List.zipWith (fun a b => (1 : ℚ) * a + (0 : ℚ) * b) xs ys = xs := by
  induction xs generalizing ys with
  | nil => simp
  | cons x xs ih =>
      cases ys with
      | nil => simp at h
      | cons y ys =>
          have hx : (1 : ℚ) * x + 0 * y = x := by ring
          calc List.zipWith (fun a b => (1 : ℚ) * a + (0 : ℚ) * b)
                (x :: xs) (y :: ys)
              = ((1 : ℚ) * x + (0 : ℚ) * y) ::
                  List.zipWith (fun a b => (1 : ℚ) * a + (0 : ℚ) * b) xs ys :=
                rfl
            _ = x :: xs := by rw [hx, ih ys (by simpa using h)]

theorem zipWith_weight_right (xs ys : List ℚ) (h : xs.length = ys.length) :
    List.zipWith (fun a b => (0 : ℚ) * a + (1 : ℚ) * b) xs ys = ys := by
  induction xs generalizing ys with
  | nil => cases ys with
      | nil => simp
      | cons y ys => simp at h
  | cons x xs ih =>
      cases ys with
      | nil => simp at h
      | cons y ys =>
          have hy : (0 : ℚ) * x + 1 * y = y := by ring
          calc List.zipWith (fun a b => (0 : ℚ) * a + (1 : ℚ) * b)
                (x :: xs) (y :: ys)
              = ((0 : ℚ) * x + (1 : ℚ) * y) ::
                  List.zipWith (fun a b => (0 : ℚ) * a + (1 : ℚ) * b) xs ys :=
                rfl
            _ = y :: ys := by rw [hy, ih ys (by simpa using h)]

/-- C6.  Linear-combination fusion rescales each series independently to
`[0, 1]`, combines them as `w_sim * sim_norm + w_div * div_norm` and ranks
the composite once; with weights `(1, 0)` it coincides with pure-similarity
selection on the normalized similarity scores, and with `(0, 1)` with
pure-diversity selection on the normalized diversity scores. -/
theorem linear_fusion_unit_weights (sim divScores : List ℚ)
    (policy : SelectPolicy) (invert : Bool)
    (hlen : sim.length = divScores.length) :
    selectSimilarAndDiverse sim divScores .linearCombination (1, 0) policy
        invert =
      rankMetricAndSelect (minMaxScale sim) policy invert ∧
    selectSimilarAndDiverse sim divScores .linearCombination (0, 1) policy
        invert =
      rankMetricAndSelect (minMaxScale divScores) policy invert := by
  have hl : (minMaxScale sim).length = (minMaxScale divScores).length := by
    rw [minMaxScale_length, minMaxScale_length, hlen]
  constructor
  · show rankMetricAndSelect
        (List.zipWith (fun a b => (1 : ℚ) * a + (0 : ℚ) * b)
          (minMaxScale sim) (minMaxScale divScores)) policy invert = _
    rw [zipWith_weight_left _ _ hl]
  · show rankMetricAndSelect
        (List.zipWith (fun a b => (0 : ℚ) * a + (1 : ℚ) * b)
          (minMaxScale sim) (minMaxScale divScores)) policy invert = _
    rw [zipWith_weight_right _ _ hl]

/-- C6 witness: the unit-weight identities instantiated on the concrete
series `[3, 1]` and `[1, 2]` with fixed-count policy 1. -/
theorem linear_fusion_unit_weights_witness :
    (([3, 1] : List ℚ).length = ([1, 2] : List ℚ).length) ∧
      (selectSimilarAndDiverse [3, 1] [1, 2] .linearCombination (1, 0)
          (.numDocs 1) false =
        rankMetricAndSelect (minMaxScale [3, 1]) (.numDocs 1) false ∧
      selectSimilarAndDiverse [3, 1] [1, 2] .linearCombination (0, 1)
          (.numDocs 1) false =
        rankMetricAndSelect (minMaxScale [1, 2]) (.numDocs 1) false) :=
  ⟨rfl, linear_fusion_unit_weights [3, 1] [1, 2] (.numDocs 1) false rfl⟩

/-- Similarity functions whose raw values are distances, negated by
`calculate_similarity` (the tuple in
`if args.sim_func in ('euclidean', 'variational', 'bhattacharyya', 'renyi')`). -/
def negatedSimFuncs : List String :=
  ["euclidean", "variational", "bhattacharyya", "renyi"]

/-- Embedding of `calculate_similarity`, parametrized by the raw score
series produced by the external similarity registry: the raw scores are
negated exactly for the distance-oriented functions so that higher always
means more similar. -/
def calculateSimilarity (raw : List ℚ) (simFunc : String) : List ℚ :=
  if simFunc ∈ negatedSimFuncs then raw.map (fun x => -x) else raw

/-- Embedding of `calculate_diversity`, parametrized by the raw score
series produced by the external diversity registry: the raw scores are
negated exactly for `type_token_ratio` so that higher always means more
diverse. -/
def calculateDiversity (raw : List ℚ) (divFunc : String) : List ℚ :=
  if divFunc = "type_token_ratio" then raw.map (fun x => -x) else raw

/-- C7.  `calculate_similarity` negates the raw scores exactly for
`euclidean`, `variational`, `bhattacharyya` and `renyi` and leaves every
other similarity function's scores unchanged; `calculate_diversity` negates
exactly for `type_token_ratio`. -/
theorem sign_inversion_spec (raw : List ℚ) (simFunc divFunc : String) :
    (simFunc ∈ ["euclidean", "variational", "bhattacharyya", "renyi"] →
        calculateSimilarity raw simFunc = raw.map (fun x => -x)) ∧
      (simFunc ∉ ["euclidean", "variational", "bhattacharyya", "renyi"] →
        calculateSimilarity raw simFunc = raw) ∧
      (calculateDiversity raw "type_token_ratio" = raw.map (fun x => -x)) ∧
      (divFunc ≠ "type_token_ratio" → calculateDiversity raw divFunc = raw) := by
  refine ⟨fun h => ?_, fun h => ?_, ?_, fun h => ?_⟩
  · rw [calculateSimilarity, if_pos (show simFunc ∈ negatedSimFuncs from h)]
  · rw [calculateSimilarity, if_neg (show simFunc ∉ negatedSimFuncs from h)]
  · rw [calculateDiversity, if_pos rfl]
  · rw [calculateDiversity, if_neg h]

/-- C7 witness: `euclidean` raw scores are negated, `jensen-shannon` and
`entropy` raw scores pass through unchanged, `type_token_ratio` is negated. -/
theorem sign_inversion_spec_witness :
    (calculateSimilarity [1, -2] "euclidean" = [-1, 2]) ∧
      (calculateSimilarity [1, -2] "jensen-shannon" = [1, -2]) ∧
      (calculateDiversity [1, -2] "type_token_ratio" = [-1, 2]) ∧
      (calculateDiversity [1, -2] "entropy" = [1, -2]) :=
  ⟨((sign_inversion_spec [1, -2] "euclidean" "entropy").1
      (by decide)).trans (by decide),
    (sign_inversion_spec [1, -2] "jensen-shannon" "entropy").2.1 (by decide),
    ((sign_inversion_spec [1, -2] "euclidean" "entropy").2.2.1).trans
      (by decide),
    (sign_inversion_spec [1, -2] "euclidean" "entropy").2.2.2 (by decide)⟩

/-- Embedding of the percentage validation in `parse_args`
(`if args.pct is not None and not 0 < args.pct <= 1: raise ValueError`). -/
def validatePct : Option ℚ → Except String Unit
  | none => .ok ()
  | some p =>
      if 0 < p ∧ p ≤ 1 then .ok ()
      else .error "Invalid percentage value provided"

/-- Composition mirroring the script's `__main__` flow: `parse_args`
validates the configuration and only then does `main` run the scoring and
selection pipeline; an invalid percentage therefore aborts before any mask
is computed. -/
def selectDataMain (pct : Option ℚ) (scores : List ℚ) (policy : SelectPolicy)
    (invert : Bool) : Except String (List Bool) :=
  match validatePct pct with
  | .error e => .error e
  | .ok _ => .ok (rankMetricAndSelect scores policy invert)

/-- C8.  A supplied percentage outside `(0, 1]` makes the pipeline fail at
configuration time with `parse_args`' error, before any selection runs,
while a percentage inside `(0, 1]` passes validation and lets the pipeline
produce a mask. -/
theorem pct_validation_spec (p : ℚ) (scores : List ℚ) (policy : SelectPolicy)
    (invert : Bool) :
    (¬ (0 < p ∧ p ≤ 1) →
        selectDataMain (some p) scores policy invert =
          .error "Invalid percentage value provided") ∧
      (0 < p ∧ p ≤ 1 →
        selectDataMain (some p) scores policy invert =
          .ok (rankMetricAndSelect scores policy invert)) := by
  constructor
  · intro h
    simp [selectDataMain, validatePct, if_neg h]
  · intro h
    simp [selectDataMain, validatePct, if_pos h]

/-- C8 witness: `pct = 2` is rejected at configuration time and `pct = 1/2`
passes validation. -/
theorem pct_validation_spec_witness :
    (¬ ((0 : ℚ) < 2 ∧ (2 : ℚ) ≤ 1)) ∧
      selectDataMain (some 2) [1, 2] (.pct 2) false =
        .error "Invalid percentage value provided" ∧
      ((0 : ℚ) < 1/2 ∧ (1/2 : ℚ) ≤ 1) ∧
      selectDataMain (some (1/2)) [1, 2] (.pct (1/2)) false =
        .ok (rankMetricAndSelect [1, 2] (.pct (1/2)) false) :=
  ⟨by norm_num,
    (pct_validation_spec 2 [1, 2] (.pct 2) false).1 (by norm_num),
    by norm_num,
    (pct_validation_spec (1/2) [1, 2] (.pct (1/2)) false).2 (by norm_num)⟩

/-- Cache filename used by `select_similar`:
`similar_{tfidf|count}_{corpus.stem}_{sim_func}_{fine_tune_text.stem}.pkl`. -/
def selectSimilarCacheName (useTfidf : Bool) (corpus simFunc ftText : String) :
    String :=
  "similar_" ++ (if useTfidf then "tfidf" else "count") ++ "_" ++ corpus ++
    "_" ++ simFunc ++ "_" ++ ftText ++ ".pkl"

/-- Cache filename used by `select_diverse`:
`diverse_{tfidf|count}_{corpus.stem}_{div_func}.pkl`. -/
def selectDiverseCacheName (useTfidf : Bool) (corpus divFunc : String) :
    String :=
  "diverse_" ++ (if useTfidf then "tfidf" else "count") ++ "_" ++ corpus ++
    "_" ++ divFunc ++ ".pkl"

/-- Similarity cache filename used by `select_similar_and_diverse`:
`similar_{corpus.stem}_{sim_func}_{fine_tune_text.stem}.pkl` — note the
missing representation-mode component. -/
def simDivSimCacheName (corpus simFunc ftText : String) : String :=
  "similar_" ++ corpus ++ "_" ++ simFunc ++ "_" ++ ftText ++ ".pkl"

/-- Diversity cache filename used by `select_similar_and_diverse`:
`diverse_{corpus.stem}.pkl` — note the missing representation-mode and
diversity-function components. -/
def simDivDivCacheName (corpus : String) : String :=
  "diverse_" ++ corpus ++ ".pkl"

/-- Modelled from the spec: the similarity score-series cache key the spec
prescribes, `similar_<mode>_<corpus>_<simfunc>_<fttext>.pkl`. -/
def specSimilarCacheName (mode corpus simFunc ftText : String) : String :=
  "similar_" ++ mode ++ "_" ++ corpus ++ "_" ++ simFunc ++ "_" ++ ftText ++
    ".pkl"

/-- Modelled from the spec: the diversity score-series cache key the spec
prescribes, `diverse_<mode>_<corpus>_<divfunc>.pkl`. -/
def specDiverseCacheName (mode corpus divFunc : String) : String :=
  "diverse_" ++ mode ++ "_" ++ corpus ++ "_" ++ divFunc ++ ".pkl"

/-- C4 counterexample: the score-series caches written by
`select_similar_and_diverse` do not follow the spec's naming scheme for any
representation mode — at corpus stem `corpus`, similarity function
`jensen-shannon`, diversity function `entropy` and fine-tune stem `ft`, the
code uses `similar_corpus_jensen-shannon_ft.pkl` and `diverse_corpus.pkl`. -/
theorem score_cache_name_counterexample :
    simDivDivCacheName "corpus" = "diverse_corpus.pkl" ∧
      (∀ mode ∈ ["tfidf", "count"],
        simDivDivCacheName "corpus" ≠
          specDiverseCacheName mode "corpus" "entropy") ∧
      simDivSimCacheName "corpus" "jensen-shannon" "ft" =
        "similar_corpus_jensen-shannon_ft.pkl" ∧
      (∀ mode ∈ ["tfidf", "count"],
        simDivSimCacheName "corpus" "jensen-shannon" "ft" ≠
          specSimilarCacheName mode "corpus" "jensen-shannon" "ft") := by
  refine ⟨rfl, ?_, rfl, ?_⟩ <;> decide

/-- C4 amended: `select_similar` and `select_diverse` persist score series
under the spec's keys `similar_<mode>_<corpus>_<simfunc>_<fttext>.pkl` and
`diverse_<mode>_<corpus>_<divfunc>.pkl` with mode `tfidf`/`count`, but
`select_similar_and_diverse` instead uses
`similar_<corpus>_<simfunc>_<fttext>.pkl` and `diverse_<corpus>.pkl`,
omitting the mode (and, for diversity, the function name). -/
theorem score_cache_name_spec (useTfidf : Bool)
    (corpus simFunc divFunc ftText : String) :
    selectSimilarCacheName useTfidf corpus simFunc ftText =
      specSimilarCacheName (if useTfidf then "tfidf" else "count") corpus
        simFunc ftText ∧
    selectDiverseCacheName useTfidf corpus divFunc =
      specDiverseCacheName (if useTfidf then "tfidf" else "count") corpus
        divFunc ∧
    simDivSimCacheName corpus simFunc ftText =
      "similar_" ++ corpus ++ "_" ++ simFunc ++ "_" ++ ftText ++ ".pkl" ∧
    simDivDivCacheName corpus = "diverse_" ++ corpus ++ ".pkl" := by
  cases useTfidf <;>
    exact ⟨rfl, rfl, rfl, rfl⟩

end SelectData

namespace Eurlex57k

/-- Value stored in a dataframe cell: the `main_body` column holds a list
of paragraph strings before the ETL step and a single joined string after
it. -/
inductive CellVal where
  | strList (xs : List String)
  | str (s : String)
deriving DecidableEq

/-- Row of the Eurlex57k dataframe, restricted to the columns the
constructor's ETL touches (`dataset`, `main_body`, and the
`main_body_original` column it adds, absent before construction). -/
structure Row where
  dataset : String
  main_body : CellVal
  main_body_original : Option CellVal
deriving DecidableEq

/-- A pandas dataframe object, as a mutable heap object identified by its
position in an explicit heap (Python variables are references). -/
structure DataFrame where
  rows : List Row
deriving DecidableEq

/-- Python `'\n'.join(x)`: joins a list of strings with newlines; applied
to a string it joins the characters. -/
def joinNewline : CellVal → CellVal
  | .strList xs => .str (String.intercalate "\n" xs)
  | .str s => .str (String.intercalate "\n" (s.toList.map Char.toString))

/-- Embedding of `Eurlex57kDataset.__init__` as a heap transformer: `heap`
is the store of live dataframe objects and `p` the caller's reference.
Line 21 (`eurlex57k = eurlex57k.copy()`) allocates a fresh copy and rebinds
the local name to it; the mode checks follow; the boolean-mask selection
`eurlex57k[eurlex57k['dataset'] == mode]` allocates another (filtered)
object; the two ETL column assignments (`main_body_original` backup, then
newline-join of `main_body`, which reads the unchanged `main_body`) mutate
only that filtered object.  The tokenizer check and the `TEXT_COLS` check
concern external collaborators and columns fixed by `Row`, and the
encoding/label code only reads the dataframe, so they are elided.  Returns
the final heap and the reference held in `self`. -/
def eurlex57kInit (heap : List DataFrame) (p : Nat) (mode : String) :
    Except String (List DataFrame × Nat) :=
  match heap[p]? with
  | none => .error "invalid reference"
  | some df =>
      let heap1 := heap ++ [df]
      if mode ∉ ["train", "dev", "test"] then
        .error "Incorrect value specified for mode"
      else if mode ∉ df.rows.map (fun r => r.dataset) then
        .error "Mode does not exist in Eurlex57k dataframe"
      else
        let filtered : DataFrame :=
          ⟨df.rows.filter (fun r => r.dataset == mode)⟩
        if filtered.rows.isEmpty then
          .error "No values after filtering Eurlex57k"
        else
          let mutated : DataFrame :=
            ⟨filtered.rows.map fun r =>
              { r with
                main_body_original := some r.main_body,
                main_body := joinNewline r.main_body }⟩
          .ok ((heap1 ++ [filtered]).set heap1.length mutated, heap1.length)

/-- C10.  Constructing an `Eurlex57kDataset` never mutates the caller's
dataframe: whenever the constructor succeeds, the heap object the caller's
reference points to is byte-for-byte the one passed in, because the ETL
steps act on the copy made on the constructor's first line. -/
theorem eurlex_init_preserves_caller (heap : List DataFrame) (p : Nat)
    (mode : String) (result : List DataFrame × Nat)
    (hok : eurlex57kInit heap p mode = .ok result) :
    result.1[p]? = heap[p]? := by
  unfold eurlex57kInit at hok
  cases hp : heap[p]? with
  | none => rw [hp] at hok; exact absurd hok (by simp)
  | some df =>
      rw [hp] at hok
      have hplt : p < heap.length := by
        rcases List.getElem?_eq_some.mp hp with ⟨h1, _⟩
        exact h1
      simp only at hok
      split at hok
      · exact absurd hok (by simp)
      · split at hok
        · exact absurd hok (by simp)
        · split at hok
          · exact absurd hok (by simp)
          · rw [Except.ok.injEq] at hok
            subst hok
            have hne : (heap ++ [df]).length ≠ p := by
              simp only [List.length_append, List.length_cons,
                List.length_nil]
              omega
            rw [List.getElem?_set_ne hne,
              List.getElem?_append_left
                (by simpa using hplt.trans_le (Nat.le_succ _)),
              List.getElem?_append_left hplt]
            exact hp

def sampleRow : Row := ⟨"train", .strList ["a", "b"], none⟩

def sampleDF : DataFrame := ⟨[sampleRow]⟩

def sampleMutated : DataFrame :=
  ⟨[⟨"train", .str "a\nb", some (.strList ["a", "b"])⟩]⟩

/-- C10 witness: on a one-row heap the constructor succeeds, its result
heap holds the untouched original, the copy, and the mutated filtered
object, and position `0` (the caller's dataframe) is unchanged. -/
theorem eurlex_init_preserves_caller_witness :
    eurlex57kInit [sampleDF] 0 "train" =
        .ok ([sampleDF, sampleDF, sampleMutated], 2) ∧
      ([sampleDF, sampleDF, sampleMutated] : List DataFrame)[0]? =
        ([sampleDF] : List DataFrame)[0]? :=
  ⟨rfl,
    eurlex_init_preserves_caller [sampleDF] 0 "train"
      ([sampleDF, sampleDF, sampleMutated], 2) rfl⟩

end Eurlex57k
